import Mathlib

/-!
Verification development for the signac synchronization engine (sync.py).

Documents are JSON-like nested key-value mappings.  We embed them as
association lists of string keys paired with values; values are either
scalars (modelled by integers) or nested mappings.  Python dictionaries
preserve insertion order, never hold duplicate keys, update an existing key
in place and append a new key at the end; the embedding mirrors this.
-/

mutual

inductive Val where
  | int : Int → Val
  | map : Entries → Val

inductive Entries where
  | nil : Entries
  | cons : String → Val → Entries → Entries

end

deriving instance DecidableEq for Val
deriving instance DecidableEq for Entries

/-- Python dict key lookup (`doc[key]` / `key in doc`). -/
def lookupE : Entries → String → Option Val
  | Entries.nil, _ => none
  | Entries.cons k v rest, key => if k == key then some v else lookupE rest key

/-- Python dict assignment `doc[key] = value`: replaces in place, else appends. -/
def setE : Entries → String → Val → Entries
  | Entries.nil, key, value => Entries.cons key value Entries.nil
  | Entries.cons k v rest, key, value =>
      if k == key then Entries.cons key value rest
      else Entries.cons k v (setE rest key value)

/-- Number of keys (`len(doc)`). -/
def lenE : Entries → Nat
  | Entries.nil => 0
  | Entries.cons _ _ rest => 1 + lenE rest

mutual

/-- Python `==` on document values: scalars compare by value, mappings by
key set and per-key value equality (insertion order is irrelevant). -/
def valEq : Val → Val → Bool
  | Val.int a, w =>
      match w with
      | Val.int b => a == b
      | Val.map _ => false
  | Val.map a, w =>
      match w with
      | Val.int _ => false
      | Val.map b => Nat.beq (lenE a) (lenE b) && subE a b

/-- Every key of the first mapping is present in the second with an equal
value.  Together with equal lengths (and duplicate-free keys, which Python
dicts guarantee) this is exactly Python dict equality. -/
def subE : Entries → Entries → Bool
  | Entries.nil, _ => true
  | Entries.cons k v rest, d =>
      (match lookupE d k with
       | some w => valEq v w
       | none => false) && subE rest d

end

/-- Python `==` on two documents. -/
def docEq (a b : Entries) : Bool := valEq (Val.map a) (Val.map b)

/-!
Errors raised by the synchronization engine (errors.py taxonomy as used by
sync.py, plus the exceptions Python itself produces on the traced paths).
-/

inductive SyncErr where
  | fileConflict (fn : String)        -- FileSyncConflict
  | docConflict (keys : List String)  -- DocumentSyncConflict
  | typeErr                           -- Python TypeError (mapping merged into a non-mapping)
  | backupExists (path : String)      -- RuntimeError raised by _FileModifyProxy.create_backup
  | ioError                           -- OSError from a failing file operation
deriving DecidableEq

/-- Python set `add`: the skipped-keys set of DocSync.ByKey is modelled as a
duplicate-free list in insertion order. -/
def addKey (s : List String) (k : String) : List String :=
  if s.contains k then s else s ++ [k]

/-!
DocSync.ByKey (sync.py lines 314-352).  The functor keeps a `skipped_keys`
set across calls.  `byKeyLoop` is the `for key, value in src.items()` loop of
`ByKey.__call__`, operating on plain documents; it returns the updated
destination, the updated skipped-key set, and a flag recording that Python
raised a TypeError (which happens when a differing source mapping value meets
a non-mapping destination value and the source mapping is non-empty: the
nested call then evaluates `key in dst` with a non-mapping `dst`).

The nested invocation `self(src[key], dst[key], key + '.')` is inlined: its
`if src == dst: return` guard cannot fire there because `dst[key] == value`
was just found false, and its trailing skipped-keys check is a no-op because
its root argument `key + '.'` is non-empty.  Note that the source passes
`key + '.'` as the new root, discarding the current root prefix.  Python
mutates the nested dictionary through the alias `dst[key]`; the embedding
instead writes the recursion result back into the destination, which is the
same thing for plain documents.
-/

mutual

def byKeyVal (ks : Option (String → Bool)) :
    Val → Entries → String → List String → Entries × List String × Bool
  | Val.map sm, dm, root, sk => byKeyLoop ks sm dm root sk
  | Val.int _, dm, _, sk => (dm, sk, false)  -- unreachable: only called on mapping values

def byKeyLoop (ks : Option (String → Bool)) :
    Entries → Entries → String → List String → Entries × List String × Bool
  | Entries.nil, dst, _, sk => (dst, sk, false)
  | Entries.cons k v rest, dst, root, sk =>
      match lookupE dst k with
      | none => byKeyLoop ks rest (setE dst k v) root sk
      | some dv =>
          if valEq dv v then byKeyLoop ks rest dst root sk
          else
            match v with
            | Val.map sm =>
                match dv with
                | Val.map dm =>
                    -- recurse with root `key + '.'` (the accumulated root is dropped, as in the source)
                    let r := byKeyVal ks (Val.map sm) dm (k ++ ".") sk
                    if r.2.2 then (setE dst k (Val.map r.1), r.2.1, true)
                    else byKeyLoop ks rest (setE dst k (Val.map r.1)) root r.2.1
                | Val.int _ =>
                    match sm with
                    | Entries.nil => byKeyLoop ks rest dst root sk
                    | Entries.cons _ _ _ => (dst, sk, true)  -- TypeError
            | Val.int _ =>
                match ks with
                | none => byKeyLoop ks rest dst root (addKey sk (root ++ k))
                | some f =>
                    if f (root ++ k) then byKeyLoop ks rest (setE dst k v) root sk
                    else byKeyLoop ks rest dst root (addKey sk (root ++ k))

end

/-- One top-level invocation of `DocSync.ByKey.__call__` on plain documents:
the early `src == dst` return, the key loop, and the final skipped-keys
check, which raises DocumentSyncConflict when no key-strategy was supplied
and otherwise only logs the skipped keys.  `sk` is the `skipped_keys` state
the functor instance carries into the call. -/
def byKeyCall (ks : Option (String → Bool)) (src dst : Entries)
    (sk : List String) : Entries × List String × Option SyncErr :=
  if docEq src dst then (dst, sk, none)
  else
    let r := byKeyLoop ks src dst "" sk
    if r.2.2 then (r.1, r.2.1, some SyncErr.typeErr)
    else if !r.2.1.isEmpty && ks.isNone then
      (r.1, r.2.1, some (SyncErr.docConflict r.2.1))
    else (r.1, r.2.1, none)

/-!
The _DocProxy (sync.py lines 131-183) guards document writes: `__setitem__`
is suppressed on dry runs, while `clear` is not (the source's `clear` calls
`self.doc.clear()` unconditionally).  `__getitem__` hands out the raw nested
value, so when ByKey recurses into a nested mapping the nested writes bypass
the proxy.
-/

structure DocProxy where
  doc : Entries
  dryRun : Bool
deriving DecidableEq

def DocProxy.setItem (p : DocProxy) (k : String) (v : Val) : DocProxy :=
  if p.dryRun then p else { p with doc := setE p.doc k v }

/-- The source's `clear` mutates the document even on dry runs. -/
def DocProxy.clear (p : DocProxy) : DocProxy :=
  { p with doc := Entries.nil }

/-- Iterated `__setitem__` over another document's entries (`update`). -/
def DocProxy.update (p : DocProxy) : Entries → DocProxy
  | Entries.nil => p
  | Entries.cons k v rest => (p.setItem k v).update rest

/-- The `for key, value in src.items()` loop of `ByKey.__call__` when the
destination is a `_DocProxy` (the situation under `create_doc_backup`):
top-level assignments go through the proxy, while recursion into a nested
mapping obtains the raw nested dictionary from `__getitem__` and therefore
runs unproxied (its writes reach the real document even on dry runs).  The
top-level root is the empty string. -/
def byKeyLoopProxy (ks : Option (String → Bool)) :
    Entries → DocProxy → List String → DocProxy × List String × Bool
  | Entries.nil, p, sk => (p, sk, false)
  | Entries.cons k v rest, p, sk =>
      match lookupE p.doc k with
      | none => byKeyLoopProxy ks rest (p.setItem k v) sk
      | some dv =>
          if valEq dv v then byKeyLoopProxy ks rest p sk
          else
            match v with
            | Val.map sm =>
                match dv with
                | Val.map dm =>
                    let r := byKeyVal ks (Val.map sm) dm (k ++ ".") sk
                    -- the nested writes land in the raw document, not through the proxy
                    if r.2.2 then ({ p with doc := setE p.doc k (Val.map r.1) }, r.2.1, true)
                    else byKeyLoopProxy ks rest
                      { p with doc := setE p.doc k (Val.map r.1) } r.2.1
                | Val.int _ =>
                    match sm with
                    | Entries.nil => byKeyLoopProxy ks rest p sk
                    | Entries.cons _ _ _ => (p, sk, true)  -- TypeError
            | Val.int _ =>
                match ks with
                | none => byKeyLoopProxy ks rest p (addKey sk k)
                | some f =>
                    if f k then byKeyLoopProxy ks rest (p.setItem k v) sk
                    else byKeyLoopProxy ks rest p (addKey sk k)

/-- Top-level `ByKey.__call__` against a `_DocProxy` destination; the
`src == dst` test compares against the proxied document (`_DocProxy.__eq__`
delegates to the underlying mapping). -/
def byKeyCallProxy (ks : Option (String → Bool)) (src : Entries)
    (p : DocProxy) (sk : List String) : DocProxy × List String × Option SyncErr :=
  if docEq src p.doc then (p, sk, none)
  else
    let r := byKeyLoopProxy ks src p sk
    if r.2.2 then (r.1, r.2.1, some SyncErr.typeErr)
    else if !r.2.1.isEmpty && ks.isNone then
      (r.1, r.2.1, some (SyncErr.docConflict r.2.1))
    else (r.1, r.2.1, none)

/-- The document-synchronization body that `sync_jobs` runs under the guard:
a freshly constructed `DocSync.ByKey` (empty skipped-keys state) applied to
the source document and the proxied destination document. -/
def byKeyBody (ks : Option (String → Bool)) (src : Entries)
    (p : DocProxy) : DocProxy × Option SyncErr :=
  let r := byKeyCallProxy ks src p []
  (r.1, r.2.2)

/-!
_FileModifyProxy.create_doc_backup (sync.py lines 236-250).  If the document
is empty, has no backing filename, or the backing file is missing, an
in-memory snapshot is taken and on exception the proxy is cleared and
repopulated from the snapshot.  Otherwise the backing file is duplicated via
`create_backup(fn)` and restored from the duplicate on exception; for a
file-backed document this restores the document's contents, and on a dry run
the file operations are all suppressed so the document is left as the body
left it.  `hasFile` states that the document has a backing filename whose
file exists on disk.
-/

def create_doc_backup (dry : Bool) (hasFile : Bool) (doc : Entries)
    (body : DocProxy → DocProxy × Option SyncErr) : Entries × Option SyncErr :=
  let proxy : DocProxy := ⟨doc, dry⟩
  if lenE doc == 0 || !hasFile then
    let backup := doc
    match body proxy with
    | (p, none) => (p.doc, none)
    | (p, some e) => (((p.clear).update backup).doc, some e)
  else
    match body proxy with
    | (p, none) => (p.doc, none)
    | (p, some e) => (if dry then p.doc else doc, some e)

/-!
A flat file-system model for _FileModifyProxy (sync.py lines 185-234): a
duplicate-free association list from paths to file contents.  `copy` and
`remove` are the proxied operations; on a dry run they log only.  A copy
whose source is missing and a removal of a missing path raise OSError.
-/

abbrev FS := List (String × String)

def fsLookup (fs : FS) (p : String) : Option String :=
  match fs with
  | [] => none
  | (q, c) :: rest => if q == p then some c else fsLookup rest p

def fsIsFile (fs : FS) (p : String) : Bool := (fsLookup fs p).isSome

def fsWrite (fs : FS) (p c : String) : FS :=
  match fs with
  | [] => [(p, c)]
  | (q, d) :: rest => if q == p then (p, c) :: rest else (q, d) :: fsWrite rest p c

def fsRemove (fs : FS) (p : String) : FS :=
  fs.filter (fun e => !(e.1 == p))

/-- Proxied `shutil.copy` (`_FileModifyProxy.copy`). -/
def proxyCopy (dry : Bool) (fs : FS) (src dst : String) : FS × Option SyncErr :=
  if dry then (fs, none)
  else
    match fsLookup fs src with
    | some c => (fsWrite fs dst c, none)
    | none => (fs, some SyncErr.ioError)

/-- Proxied `os.remove` (`_FileModifyProxy.remove`). -/
def proxyRemove (dry : Bool) (fs : FS) (p : String) : FS × Option SyncErr :=
  if dry then (fs, none)
  else if fsIsFile fs p then (fsRemove fs p, none)
  else (fs, some SyncErr.ioError)

/-!
_FileModifyProxy.create_backup (sync.py lines 217-234).  The guard refuses
with a RuntimeError if `path + '~'` already exists, before touching anything.
Otherwise it copies `path` to the duplicate and runs the guarded region; if
the try block raises, the except clause copies the duplicate back over
`path` and re-raises (an error raised by the restore copy replaces the
original one); the finally clause removes the duplicate in all cases, and an
error raised there replaces any pending one, following Python semantics.
-/

def create_backup (dry : Bool) (fs : FS) (path : String)
    (body : FS → FS × Option SyncErr) : FS × Option SyncErr :=
  let pb := path ++ "~"
  if fsIsFile fs pb then (fs, some (SyncErr.backupExists pb))
  else
    let tryR :=
      match proxyCopy dry fs path pb with
      | (fs1, some e) => (fs1, some e)
      | (fs1, none) => body fs1
    let afterExcept :=
      match tryR with
      | (fs2, none) => (fs2, (none : Option SyncErr))
      | (fs2, some e) =>
          match proxyCopy dry fs2 pb path with
          | (fs3, some e2) => (fs3, some e2)
          | (fs3, none) => (fs3, some e)
    match proxyRemove dry afterExcept.1 pb with
    | (fs4, some e2) => (fs4, some e2)
    | (fs4, none) => (fs4, afterExcept.2)

/-!
Directory trees for the workspace synchronization (`_sync_job_workspaces`,
sync.py lines 355-387).  A tree node is a file with contents or a directory
of named entries; entry lists are duplicate-free and kept in sorted name
order, matching the sorted listings `filecmp.dircmp` produces.  "Differing"
compares file contents, the behaviour of the deep comparison (the shallow
variant compares stat signatures instead; the walk's control flow is
identical, only the notion of sameness changes).
-/

mutual

inductive FTree where
  | file : String → FTree
  | dir : TList → FTree

inductive TList where
  | nil : TList
  | cons : String → FTree → TList → TList

end

deriving instance DecidableEq for FTree
deriving instance DecidableEq for TList

def lookupT : TList → String → Option FTree
  | TList.nil, _ => none
  | TList.cons k t rest, key => if k == key then some t else lookupT rest key

def setT : TList → String → FTree → TList
  | TList.nil, key, t => TList.cons key t TList.nil
  | TList.cons k u rest, key, t =>
      if k == key then TList.cons key t rest
      else TList.cons k u (setT rest key t)

/-- Character-list prefix test (behaves like `String.isPrefixOf`, stated
over the underlying character lists). -/
def litPrefix : List Char → List Char → Bool
  | [], _ => true
  | _ :: _, [] => false
  | a :: as, b :: bs => a == b && litPrefix as bs

/-- Python `any([re.match(p, fn) for p in exclude])` for literal exclude
patterns: `re.match` anchors at the start of the name, so a literal pattern
matches exactly when it is a prefix of the name.  An empty exclude list
(the source's `if exclude and ...` guard) matches nothing. -/
def matchesExclude (exclude : List String) (fn : String) : Bool :=
  exclude.any (fun p => litPrefix p.data fn.data)

/-- Relative path join (`os.path.join(subdir, fn)` with `subdir` possibly empty). -/
def joinPath (subdir fn : String) : String :=
  if subdir == "" then fn else subdir ++ "/" ++ fn

/-- The `diff.left_only` loop: source entries absent from the original
destination listing are copied (`copy` for files, `copytree` for
directories) into the accumulator unless their name matches the exclude
pattern.  Copies are suppressed on dry runs. -/
def copyPhase (dry : Bool) (exclude : List String) :
    TList → TList → TList → TList
  | TList.nil, _, acc => acc
  | TList.cons fn t rest, dst0, acc =>
      match lookupT dst0 fn with
      | some _ => copyPhase dry exclude rest dst0 acc
      | none =>
          if matchesExclude exclude fn then copyPhase dry exclude rest dst0 acc
          else copyPhase dry exclude rest dst0 (if dry then acc else setT acc fn t)

/-- The `diff.diff_files` loop: for every name common to both listings where
both sides are files with differing contents, skip it if excluded, raise
`FileSyncConflict(fn)` — carrying the bare name — if no strategy is
configured, and otherwise copy or skip as the strategy decides on the
joined relative path. -/
def diffPhase (dry : Bool) (strategy : Option (String → Bool))
    (exclude : List String) (subdir : String) :
    TList → TList → TList → TList × Option SyncErr
  | TList.nil, _, acc => (acc, none)
  | TList.cons fn t rest, dst0, acc =>
      match t, lookupT dst0 fn with
      | FTree.file c, some (FTree.file c0) =>
          if c == c0 then diffPhase dry strategy exclude subdir rest dst0 acc
          else if matchesExclude exclude fn then
            diffPhase dry strategy exclude subdir rest dst0 acc
          else
            match strategy with
            | none => (acc, some (SyncErr.fileConflict fn))
            | some strat =>
                if strat (joinPath subdir fn) then
                  diffPhase dry strategy exclude subdir rest dst0
                    (if dry then acc else setT acc fn (FTree.file c))
                else diffPhase dry strategy exclude subdir rest dst0 acc
      | _, _ => diffPhase dry strategy exclude subdir rest dst0 acc

mutual

/-- One call of `_sync_job_workspaces` on a pair of directories: the
`left_only` copy loop, then the `diff_files` conflict loop, then recursion
into every subdirectory common to both listings — `diff.subdirs` is not
filtered by the exclude pattern.  A raised conflict propagates immediately,
leaving the destination in whatever state the walk had reached.  The
non-directory fallback is never reached from the entry points. -/
def syncTree (dry : Bool) (strategy : Option (String → Bool))
    (exclude : List String) (subdir : String) : FTree → FTree → FTree × Option SyncErr
  | FTree.dir ses, FTree.dir des =>
      let des1 := copyPhase dry exclude ses des des
      match diffPhase dry strategy exclude subdir ses des des1 with
      | (des2, some e) => (FTree.dir des2, some e)
      | (des2, none) =>
          match walkSubdirs dry strategy exclude subdir ses des des2 with
          | (des3, e) => (FTree.dir des3, e)
  | _, d => (d, none)

/-- The `for _subdir in diff.subdirs` loop: for every source entry that is a
directory and whose name denotes a directory in the original destination
listing, recurse with the joined subdirectory path and write the result
back; no exclude check is performed here. -/
def walkSubdirs (dry : Bool) (strategy : Option (String → Bool))
    (exclude : List String) (subdir : String) :
    TList → TList → TList → TList × Option SyncErr
  | TList.nil, _, acc => (acc, none)
  | TList.cons fn t rest, dst0, acc =>
      match t, lookupT dst0 fn with
      | FTree.dir _, some (FTree.dir d0) =>
          match syncTree dry strategy exclude (joinPath subdir fn) t (FTree.dir d0) with
          | (r, some e) => (setT acc fn r, some e)
          | (r, none) => walkSubdirs dry strategy exclude subdir rest dst0 (setT acc fn r)
      | _, _ => walkSubdirs dry strategy exclude subdir rest dst0 acc

end

/-!
Job and project level (sync.py lines 394-476 and 524-599).  A job is its
workspace file tree plus its document; a project's job collection is a
duplicate-free association list from job ids to jobs.  The identity check,
the manifest compatibility assertions, and the not-initialized early return
of `sync_jobs` concern distinct, materialized jobs and are outside the
per-pair data flow modelled here.  Real job documents are file-backed, so
the document guard takes the file-branch unless the document is empty.
-/

structure JobData where
  ws : TList
  doc : Entries
deriving DecidableEq

/-- Embedding of `sync_jobs` on a pair of materialized jobs in distinct
projects: the exclude list gains the manifest filename and — since the
document strategy is the default ByKey, not COPY — the document filename;
the workspaces are synchronized first, and then the destination document is
synchronized under `create_doc_backup` with a fresh ByKey (no key-strategy)
unless the file walk raised. -/
def sync_jobs (dry : Bool) (strategy : Option (String → Bool))
    (exclude : List String) (fnManifest fnDocument : String)
    (src dst : JobData) : JobData × Option SyncErr :=
  let excl := exclude ++ [fnManifest, fnDocument]
  match syncTree dry strategy excl "" (FTree.dir src.ws) (FTree.dir dst.ws) with
  | (FTree.dir ws2, some e) => ({ dst with ws := ws2 }, some e)
  | (FTree.dir ws2, none) =>
      match create_doc_backup dry (!(lenE dst.doc == 0)) dst.doc (byKeyBody none src.doc) with
      | (doc2, e) => ({ ws := ws2, doc := doc2 }, e)
  | (_, e) => (dst, e)  -- unreachable: syncTree maps directory pairs to directories

abbrev Proj := List (String × JobData)

def lookupJ : Proj → String → Option JobData
  | [], _ => none
  | (i, j) :: rest, id0 => if i == id0 then some j else lookupJ rest id0

def setJ : Proj → String → JobData → Proj
  | [], id0, j => [(id0, j)]
  | (i, j0) :: rest, id0, j =>
      if i == id0 then (id0, j) :: rest else (i, j0) :: setJ rest id0 j

/-- Embedding of `_clone_or_sync` (sync.py lines 574-583): try
`destination.clone(src_job)` and return 1; when the job id already exists
the clone raises DestinationExistsError and the job is synchronized with
`sync_jobs` instead, returning 2.  `destination.clone` is an external
collaborator (spec section 6): a full copy of the job — workspace plus
document — that signals DestinationExists when the id is present. -/
def clone_or_sync (dry : Bool) (strategy : Option (String → Bool))
    (exclude : List String) (fnManifest fnDocument : String)
    (dst : Proj) (id0 : String) (j : JobData) : Proj × Nat × Option SyncErr :=
  match lookupJ dst id0 with
  | none => (setJ dst id0 j, 1, none)
  | some dj =>
      let r := sync_jobs dry strategy exclude fnManifest fnDocument j dj
      (setJ dst id0 r.1, 2, r.2)

/-- The sequential job loop of `sync_projects` (lines 593-596), tallying the
clone count and the merge count; a raised error aborts the loop before the
failed job is counted, leaving already-processed jobs synchronized. -/
def sync_projects_jobs (dry : Bool) (strategy : Option (String → Bool))
    (exclude : List String) (fnManifest fnDocument : String) :
    List (String × JobData) → Proj → Nat → Nat → Proj × Nat × Nat × Option SyncErr
  | [], dst, c1, c2 => (dst, c1, c2, none)
  | (id0, j) :: rest, dst, c1, c2 =>
      match clone_or_sync dry strategy exclude fnManifest fnDocument dst id0 j with
      | (dst2, _, some e) => (dst2, c1, c2, some e)
      | (dst2, tag, none) =>
          sync_projects_jobs dry strategy exclude fnManifest fnDocument rest dst2
            (if tag == 1 then c1 + 1 else c1) (if tag == 2 then c2 + 1 else c2)

/-!
Well-formedness: Python dictionaries and directory listings never hold
duplicate keys.  The predicates below state this recursively; the lemmas
derive the basic facts the orchestration proofs need.
-/

def containsE (es : Entries) (k : String) : Bool := (lookupE es k).isSome

mutual

def wfV : Val → Bool
  | Val.int _ => true
  | Val.map es => wfE es

def wfE : Entries → Bool
  | Entries.nil => true
  | Entries.cons k v rest => !containsE rest k && wfV v && wfE rest

end

mutual

def sizeV : Val → Nat
  | Val.int _ => 1
  | Val.map es => 1 + sizeE es

def sizeE : Entries → Nat
  | Entries.nil => 0
  | Entries.cons _ v rest => 1 + sizeV v + sizeE rest

end

/-- Membership of a key-value pair in a document. -/
inductive MemE : String → Val → Entries → Prop
  | head (k : String) (v : Val) (rest : Entries) : MemE k v (Entries.cons k v rest)
  | tail (k : String) (v : Val) (k0 : String) (v0 : Val) (rest : Entries) :
      MemE k v rest → MemE k v (Entries.cons k0 v0 rest)

theorem memE_contains {k : String} {v : Val} {es : Entries}
    (h : MemE k v es) : containsE es k = true := by
  induction h with
  | head rest => simp [containsE, lookupE]
  | tail k0 v0 rest _ ih =>
      simp only [containsE, lookupE]
      split
      · rfl
      · exact ih

theorem memE_sizeV {k : String} {v : Val} {es : Entries}
    (h : MemE k v es) : sizeV v + 1 ≤ sizeE es := by
  induction h with
  | head rest => simp [sizeE]; omega
  | tail k0 v0 rest _ ih => simp [sizeE]; omega

theorem wfE_tail {k : String} {v : Val} {rest : Entries}
    (h : wfE (Entries.cons k v rest) = true) :
    containsE rest k = false ∧ wfV v = true ∧ wfE rest = true := by
  simp only [wfE, Bool.and_eq_true, Bool.not_eq_true'] at h
  exact ⟨h.1.1, h.1.2, h.2⟩

theorem wfE_mem_wfV {k : String} {v : Val} {es : Entries}
    (hwf : wfE es = true) (h : MemE k v es) : wfV v = true := by
  induction h with
  | head rest => exact (wfE_tail hwf).2.1
  | tail k0 v0 rest _ ih => exact ih (wfE_tail hwf).2.2

theorem wfE_lookup {k : String} {v : Val} {es : Entries}
    (hwf : wfE es = true) (h : MemE k v es) : lookupE es k = some v := by
  induction h with
  | head rest => simp [lookupE]
  | tail k0 v0 rest hm ih =>
      have h3 := wfE_tail hwf
      have hne : (k0 == k) = false := by
        by_contra hc
        simp only [Bool.not_eq_false, beq_iff_eq] at hc
        subst hc
        rw [memE_contains hm] at h3
        exact absurd h3.1 (by simp)
      simp only [lookupE, hne, if_false]
      exact ih h3.2.2

/-- A document is a per-key pointwise sub-document of another one whenever
the lookups agree on reflexively-equal values (recursion on a size bound,
avoiding the multi-motive recursor of the mutual inductive). -/
theorem subE_of_pointwise :
    ∀ (m : Nat) (es d : Entries), sizeE es ≤ m →
      (∀ k v, MemE k v es → lookupE d k = some v ∧ valEq v v = true) →
      subE es d = true := by
  intro m
  induction m with
  | zero =>
      intro es d hs _
      cases es with
      | nil => simp [subE]
      | cons k v rest => simp [sizeE] at hs
  | succ m ih =>
      intro es d hs hmem
      cases es with
      | nil => simp [subE]
      | cons k v rest =>
          have hhead := hmem k v (MemE.head k v rest)
          simp only [subE, hhead.1, Bool.and_eq_true]
          refine ⟨hhead.2, ?_⟩
          apply ih rest d
          · simp only [sizeE] at hs; omega
          · intro k1 v1 hm1
            exact hmem k1 v1 (MemE.tail k1 v1 k v rest hm1)

/-- Python equality is reflexive on well-formed values (strong induction on
size). -/
theorem valEq_refl_aux :
    ∀ n : Nat, ∀ v : Val, sizeV v ≤ n → wfV v = true → valEq v v = true := by
  intro n
  induction n with
  | zero =>
      intro v hs _
      cases v <;> simp [sizeV] at hs
  | succ n ih =>
      intro v hs hwf
      cases v with
      | int a => simp [valEq]
      | map es =>
          have hwf2 : wfE es = true := by simpa [wfV] using hwf
          simp only [valEq, Bool.and_eq_true]
          refine ⟨by simp [Nat.beq_eq], ?_⟩
          apply subE_of_pointwise (sizeE es) es es (Nat.le_refl _)
          intro k v hm
          refine ⟨wfE_lookup hwf2 hm, ?_⟩
          apply ih v _ (wfE_mem_wfV hwf2 hm)
          have := memE_sizeV hm
          simp only [sizeV] at hs
          omega

theorem valEq_refl {v : Val} (hwf : wfV v = true) : valEq v v = true :=
  valEq_refl_aux (sizeV v) v (Nat.le_refl _) hwf

theorem docEq_refl {es : Entries} (hwf : wfE es = true) : docEq es es = true :=
  valEq_refl (v := Val.map es) (by simpa [wfV] using hwf)

/-!
The analogous facts for directory listings, leading to the lemma that
synchronizing a workspace with an identical copy of itself is a no-op: the
tree diff finds nothing source-only and nothing differing, and the
subdirectory recursion reproduces every common subdirectory unchanged.
-/

def containsT (es : TList) (k : String) : Bool := (lookupT es k).isSome

mutual

def wfT : FTree → Bool
  | FTree.file _ => true
  | FTree.dir es => wfTL es

def wfTL : TList → Bool
  | TList.nil => true
  | TList.cons k t rest => !containsT rest k && wfT t && wfTL rest

end

mutual

def sizeT : FTree → Nat
  | FTree.file _ => 1
  | FTree.dir es => 1 + sizeTL es

def sizeTL : TList → Nat
  | TList.nil => 0
  | TList.cons _ t rest => 1 + sizeT t + sizeTL rest

end

inductive MemTL : String → FTree → TList → Prop
  | head (k : String) (t : FTree) (rest : TList) : MemTL k t (TList.cons k t rest)
  | tail (k : String) (t : FTree) (k0 : String) (t0 : FTree) (rest : TList) :
      MemTL k t rest → MemTL k t (TList.cons k0 t0 rest)

theorem memTL_contains {k : String} {t : FTree} {es : TList}
    (h : MemTL k t es) : containsT es k = true := by
  induction h with
  | head rest => simp [containsT, lookupT]
  | tail k0 t0 rest _ ih =>
      simp only [containsT, lookupT]
      split
      · rfl
      · exact ih

theorem memTL_sizeT {k : String} {t : FTree} {es : TList}
    (h : MemTL k t es) : sizeT t + 1 ≤ sizeTL es := by
  induction h with
  | head rest => simp [sizeTL]; omega
  | tail k0 t0 rest _ ih => simp [sizeTL]; omega

theorem wfTL_tail {k : String} {t : FTree} {rest : TList}
    (h : wfTL (TList.cons k t rest) = true) :
    containsT rest k = false ∧ wfT t = true ∧ wfTL rest = true := by
  simp only [wfTL, Bool.and_eq_true, Bool.not_eq_true'] at h
  exact ⟨h.1.1, h.1.2, h.2⟩

theorem wfTL_mem_wfT {k : String} {t : FTree} {es : TList}
    (hwf : wfTL es = true) (h : MemTL k t es) : wfT t = true := by
  induction h with
  | head rest => exact (wfTL_tail hwf).2.1
  | tail k0 t0 rest _ ih => exact ih (wfTL_tail hwf).2.2

theorem wfTL_lookup {k : String} {t : FTree} {es : TList}
    (hwf : wfTL es = true) (h : MemTL k t es) : lookupT es k = some t := by
  induction h with
  | head rest => simp [lookupT]
  | tail k0 t0 rest hm ih =>
      have h3 := wfTL_tail hwf
      have hne : (k0 == k) = false := by
        by_contra hc
        simp only [Bool.not_eq_false, beq_iff_eq] at hc
        subst hc
        rw [memTL_contains hm] at h3
        exact absurd h3.1 (by simp)
      simp only [lookupT, hne, if_false]
      exact ih h3.2.2

theorem setT_self_aux :
    ∀ (m : Nat) (es : TList) (k : String) (t : FTree), sizeTL es ≤ m →
      lookupT es k = some t → setT es k t = es := by
  intro m
  induction m with
  | zero =>
      intro es k t hs h
      cases es with
      | nil => simp [lookupT] at h
      | cons k0 t0 rest => simp [sizeTL] at hs
  | succ m ih =>
      intro es k t hs h
      cases es with
      | nil => simp [lookupT] at h
      | cons k0 t0 rest =>
          simp only [lookupT] at h
          simp only [setT]
          by_cases hk : (k0 == k) = true
          · rw [if_pos hk] at h ⊢
            obtain rfl : k0 = k := by simpa using hk
            injection h with h
            rw [h]
          · rw [if_neg hk] at h ⊢
            rw [ih rest k t (by simp only [sizeTL] at hs; omega) h]

theorem setT_self {es : TList} {k : String} {t : FTree}
    (h : lookupT es k = some t) : setT es k t = es :=
  setT_self_aux (sizeTL es) es k t (Nat.le_refl _) h

theorem copyPhase_self :
    ∀ (m : Nat) (dry : Bool) (excl : List String) (src dst0 acc : TList),
      sizeTL src ≤ m →
      (∀ k t, MemTL k t src → containsT dst0 k = true) →
      copyPhase dry excl src dst0 acc = acc := by
  intro m
  induction m with
  | zero =>
      intro dry excl src dst0 acc hs _
      cases src with
      | nil => simp [copyPhase]
      | cons k t rest => simp [sizeTL] at hs
  | succ m ih =>
      intro dry excl src dst0 acc hs hmem
      cases src with
      | nil => simp [copyPhase]
      | cons k t rest =>
          have hc := hmem k t (MemTL.head k t rest)
          simp only [containsT, Option.isSome_iff_exists] at hc
          obtain ⟨t0, ht0⟩ := hc
          simp only [copyPhase, ht0]
          apply ih dry excl rest dst0 acc
          · simp only [sizeTL] at hs; omega
          · intro k1 t1 hm1
            exact hmem k1 t1 (MemTL.tail k1 t1 k t rest hm1)

theorem diffPhase_self :
    ∀ (m : Nat) (dry : Bool) (strat : Option (String → Bool))
      (excl : List String) (subdir : String) (src dst0 acc : TList),
      sizeTL src ≤ m →
      (∀ k t, MemTL k t src → lookupT dst0 k = some t) →
      diffPhase dry strat excl subdir src dst0 acc = (acc, none) := by
  intro m
  induction m with
  | zero =>
      intro dry strat excl subdir src dst0 acc hs _
      cases src with
      | nil => simp [diffPhase]
      | cons k t rest => simp [sizeTL] at hs
  | succ m ih =>
      intro dry strat excl subdir src dst0 acc hs hmem
      cases src with
      | nil => simp [diffPhase]
      | cons k t rest =>
          have hrest : diffPhase dry strat excl subdir rest dst0 acc = (acc, none) := by
            apply ih dry strat excl subdir rest dst0 acc
            · simp only [sizeTL] at hs; omega
            · intro k1 t1 hm1
              exact hmem k1 t1 (MemTL.tail k1 t1 k t rest hm1)
          have hl := hmem k t (MemTL.head k t rest)
          cases t with
          | file c => simp [diffPhase, hl, hrest]
          | dir es => simp [diffPhase, hl, hrest]

theorem syncTree_self :
    ∀ (n : Nat) (strat : Option (String → Bool)) (excl : List String)
      (t : FTree), sizeT t ≤ n → wfT t = true →
      ∀ subdir, syncTree false strat excl subdir t t = (t, none) := by
  intro n
  induction n with
  | zero =>
      intro strat excl t hs _ subdir
      cases t <;> simp [sizeT] at hs
  | succ n ih =>
      intro strat excl t hs hwf subdir
      cases t with
      | file c => simp [syncTree]
      | dir es =>
          have hwfes : wfTL es = true := by simpa [wfT] using hwf
          have hes : sizeTL es ≤ n := by simp only [sizeT] at hs; omega
          have hwalk :
              ∀ (m : Nat) (src dst0 acc : TList), sizeTL src ≤ m →
                (∀ k t0, MemTL k t0 src →
                  lookupT dst0 k = some t0 ∧ lookupT acc k = some t0 ∧
                  wfT t0 = true ∧ sizeT t0 ≤ n) →
                walkSubdirs false strat excl subdir src dst0 acc = (acc, none) := by
            intro m
            induction m with
            | zero =>
                intro src dst0 acc hs0 _
                cases src with
                | nil => simp [walkSubdirs]
                | cons k t0 rest => simp [sizeTL] at hs0
            | succ m ihm =>
                intro src dst0 acc hs0 hmem
                cases src with
                | nil => simp [walkSubdirs]
                | cons k t0 rest =>
                    have hhead := hmem k t0 (MemTL.head k t0 rest)
                    have hrest :
                        walkSubdirs false strat excl subdir rest dst0 acc = (acc, none) := by
                      apply ihm rest dst0 acc
                      · simp only [sizeTL] at hs0; omega
                      · intro k1 t1 hm1
                        exact hmem k1 t1 (MemTL.tail k1 t1 k t0 rest hm1)
                    cases t0 with
                    | file c => simp [walkSubdirs, hhead.1, hrest]
                    | dir ds =>
                        have hrec := ih strat excl (FTree.dir ds) hhead.2.2.2
                          hhead.2.2.1 (joinPath subdir k)
                        simp [walkSubdirs, hhead.1, hrec, setT_self hhead.2.1, hrest]
          have hcopy : copyPhase false excl es es es = es := by
            apply copyPhase_self (sizeTL es) false excl es es es (Nat.le_refl _)
            intro k t0 hm
            exact memTL_contains hm
          have hdiff : diffPhase false strat excl subdir es es es = (es, none) := by
            apply diffPhase_self (sizeTL es) false strat excl subdir es es es (Nat.le_refl _)
            intro k t0 hm
            exact wfTL_lookup hwfes hm
          have hw : walkSubdirs false strat excl subdir es es es = (es, none) := by
            apply hwalk (sizeTL es) es es es (Nat.le_refl _)
            intro k t0 hm
            have hst := memTL_sizeT hm
            exact ⟨wfTL_lookup hwfes hm, wfTL_lookup hwfes hm,
              wfTL_mem_wfT hwfes hm, by omega⟩
          simp [syncTree, hcopy, hdiff, hw]

/-- Synchronizing a document with an identical copy of itself under the
guard is a no-op: ByKey returns at its `src == dst` test before any write
and before the skipped-keys check. -/
theorem create_doc_backup_self {doc : Entries} (hwf : wfE doc = true)
    (hf : Bool) : create_doc_backup false hf doc (byKeyBody none doc) = (doc, none) := by
  have hbody : byKeyBody none doc ⟨doc, false⟩ = (⟨doc, false⟩, none) := by
    simp [byKeyBody, byKeyCallProxy, docEq_refl hwf]
  by_cases h : (lenE doc == 0 || !hf) = true
  · simp [create_doc_backup, h, hbody]
  · simp [create_doc_backup, h, hbody]

/-- Synchronizing a job with an identical copy of itself is a no-op. -/
theorem sync_jobs_self {j : JobData} (hws : wfTL j.ws = true)
    (hdoc : wfE j.doc = true) (strat : Option (String → Bool))
    (excl : List String) (fnM fnD : String) :
    sync_jobs false strat excl fnM fnD j j = (j, none) := by
  have htree := syncTree_self (sizeT (FTree.dir j.ws)) strat (excl ++ [fnM, fnD])
    (FTree.dir j.ws) (Nat.le_refl _) (by simpa [wfT] using hws) ""
  simp [sync_jobs, htree, create_doc_backup_self hdoc]

/-!
The skipped-keys set of a ByKey instance only ever grows: the loop records
new conflicts with a set insertion and never removes or resets anything.
-/

theorem addKey_subset (s : List String) (k : String) : s ⊆ addKey s k := by
  simp only [addKey]
  split
  · exact fun a ha => ha
  · exact fun a ha => List.mem_append_left _ ha

/-- Step equation of the ByKey loop on a non-empty source (definitional). -/
theorem byKeyLoop_cons (ks : Option (String → Bool)) (k : String) (v : Val)
    (rest dst : Entries) (root : String) (sk : List String) :
    byKeyLoop ks (Entries.cons k v rest) dst root sk =
      match lookupE dst k with
      | none => byKeyLoop ks rest (setE dst k v) root sk
      | some dv =>
          if valEq dv v then byKeyLoop ks rest dst root sk
          else
            match v with
            | Val.map sm =>
                match dv with
                | Val.map dm =>
                    let r := byKeyVal ks (Val.map sm) dm (k ++ ".") sk
                    if r.2.2 then (setE dst k (Val.map r.1), r.2.1, true)
                    else byKeyLoop ks rest (setE dst k (Val.map r.1)) root r.2.1
                | Val.int _ =>
                    match sm with
                    | Entries.nil => byKeyLoop ks rest dst root sk
                    | Entries.cons _ _ _ => (dst, sk, true)
            | Val.int _ =>
                match ks with
                | none => byKeyLoop ks rest dst root (addKey sk (root ++ k))
                | some f =>
                    if f (root ++ k) then byKeyLoop ks rest (setE dst k v) root sk
                    else byKeyLoop ks rest dst root (addKey sk (root ++ k)) := by
  cases ks with
  | none => rw [byKeyLoop.eq_2]
  | some f => rw [byKeyLoop.eq_3]

theorem byKeyLoop_skipped_mono :
    ∀ (m : Nat) (ks : Option (String → Bool)) (src dst : Entries)
      (root : String) (sk : List String), sizeE src ≤ m →
      sk ⊆ (byKeyLoop ks src dst root sk).2.1 := by
  intro m
  induction m with
  | zero =>
      intro ks src dst root sk hs
      cases src with
      | nil => simp [byKeyLoop]
      | cons k v rest => simp [sizeE] at hs
  | succ m ih =>
      intro ks src dst root sk hs
      cases src with
      | nil => simp [byKeyLoop]
      | cons k v rest =>
          have hrest : sizeE rest ≤ m := by simp only [sizeE] at hs; omega
          rw [byKeyLoop_cons]
          split
          · exact ih _ _ _ _ _ hrest
          · split
            · exact ih _ _ _ _ _ hrest
            · split
              · split
                · simp only [byKeyVal]
                  split
                  · exact ih _ _ _ _ _ (by simp only [sizeE, sizeV] at hs; omega)
                  · exact (ih _ _ _ _ _
                        (by simp only [sizeE, sizeV] at hs; omega)).trans
                      (ih _ _ _ _ _ hrest)
                · split
                  · exact ih _ _ _ _ _ hrest
                  · exact fun a ha => ha
              · split
                · exact (addKey_subset sk (root ++ k)).trans (ih _ _ _ _ _ hrest)
                · split
                  · exact ih _ _ _ _ _ hrest
                  · exact (addKey_subset sk (root ++ k)).trans (ih _ _ _ _ _ hrest)

/-!
Helper facts about the flat file-system model, used by the create_backup
contract (C7).
-/

theorem string_ne_append_tilde (s : String) : s ≠ s ++ "~" := by
  intro h
  have hd : s.data = s.data ++ ['~'] := congrArg String.data h
  have hl := congrArg List.length hd
  simp at hl

theorem fsLookup_write_self (fs : FS) (p c : String) :
    fsLookup (fsWrite fs p c) p = some c := by
  induction fs with
  | nil => simp [fsWrite, fsLookup]
  | cons e rest ih =>
      obtain ⟨q, d⟩ := e
      by_cases hq : (q == p) = true
      · simp [fsWrite, hq, fsLookup]
      · simp [fsWrite, hq, fsLookup, ih]

theorem fsLookup_write_ne (fs : FS) (p c q : String) (h : ¬q = p) :
    fsLookup (fsWrite fs p c) q = fsLookup fs q := by
  have hpq : (p == q) = false := by
    by_cases hb : (p == q) = true
    · exact absurd ((beq_iff_eq).mp hb).symm h
    · simpa using hb
  induction fs with
  | nil => simp [fsWrite, fsLookup, hpq]
  | cons e rest ih =>
      obtain ⟨r, d⟩ := e
      by_cases hr : (r == p) = true
      · obtain rfl : r = p := by simpa using hr
        simp [fsWrite, fsLookup, hpq]
      · simp [fsWrite, hr, fsLookup, ih]

theorem fsLookup_remove_ne (fs : FS) (p q : String) (h : ¬q = p) :
    fsLookup (fsRemove fs p) q = fsLookup fs q := by
  have hpq : (p == q) = false := by
    by_cases hb : (p == q) = true
    · exact absurd ((beq_iff_eq).mp hb).symm h
    · simpa using hb
  induction fs with
  | nil => simp [fsRemove, fsLookup]
  | cons e rest ih =>
      obtain ⟨r, d⟩ := e
      by_cases hr : (r == p) = true
      · obtain rfl : r = p := by simpa using hr
        have h1 : fsRemove ((r, d) :: rest) r = fsRemove rest r := by
          simp [fsRemove, List.filter_cons]
        rw [h1, ih, fsLookup, if_neg (by simp [hpq])]
      · simp only [fsRemove] at ih
        simp [fsRemove, List.filter_cons, hr, fsLookup, ih]

theorem fsIsFile_remove_self (fs : FS) (p : String) :
    fsIsFile (fsRemove fs p) p = false := by
  induction fs with
  | nil => simp [fsRemove, fsIsFile, fsLookup]
  | cons e rest ih =>
      obtain ⟨r, d⟩ := e
      by_cases hr : (r == p) = true
      · simpa [fsRemove, List.filter_cons, hr] using ih
      · simp only [fsIsFile, fsRemove, List.filter_cons, hr, Bool.not_false] at ih ⊢
        simp only [if_true, fsLookup, hr, if_false]
        exact ih

theorem fsIsFile_proxyRemove (fs : FS) (p : String) :
    fsIsFile (proxyRemove false fs p).1 p = false := by
  simp only [proxyRemove, Bool.false_eq_true, if_false]
  by_cases h : fsIsFile fs p = true
  · simp only [h, if_true]
    exact fsIsFile_remove_self fs p
  · simp only [h, if_false]
    simpa using h

/-!
Project-level helper facts (C8).
-/

theorem lookupJ_setJ_self (dst : Proj) (id0 : String) (j : JobData) :
    lookupJ (setJ dst id0 j) id0 = some j := by
  induction dst with
  | nil => simp [setJ, lookupJ]
  | cons e rest ih =>
      obtain ⟨i, j0⟩ := e
      by_cases hi : (i == id0) = true
      · simp [setJ, hi, lookupJ]
      · simp [setJ, hi, lookupJ, ih]

theorem setJ_self (dst : Proj) (id0 : String) (j : JobData)
    (h : lookupJ dst id0 = some j) : setJ dst id0 j = dst := by
  induction dst with
  | nil => simp [lookupJ] at h
  | cons e rest ih =>
      obtain ⟨i, j0⟩ := e
      simp only [lookupJ] at h
      simp only [setJ]
      by_cases hi : (i == id0) = true
      · rw [if_pos hi] at h ⊢
        obtain rfl : i = id0 := by simpa using hi
        injection h with h
        rw [h]
      · rw [if_neg hi] at h ⊢
        rw [ih h]

/-!
Concrete documents used by the spec's test properties: the source
`{"a": 1, "b": {"c": 2}}` and the destination `{"a": 1, "b": {"c": 3}}`.
-/

def doc_src2 : Entries :=
  Entries.cons "a" (Val.int 1)
    (Entries.cons "b" (Val.map (Entries.cons "c" (Val.int 2) Entries.nil)) Entries.nil)

def doc_dst2 : Entries :=
  Entries.cons "a" (Val.int 1)
    (Entries.cons "b" (Val.map (Entries.cons "c" (Val.int 3) Entries.nil)) Entries.nil)

/-!
Claim theorems.
-/

/-- C1: the claim states that dry-run sync calls leave every destination
file and document byte-for-byte identical, including on the rollback path of
the document backup guard.  The code violates this: `_DocProxy.clear` does
not consult `dry_run`, so when the in-memory rollback path of
`create_doc_backup` runs under a dry run (destination document `{"a": 1}`
with no durable backing, source `{"a": 2}`, default ByKey sync raising a
conflict), the destination document is really cleared and the suppressed
`update` cannot repopulate it: the document ends empty instead of
`{"a": 1}`. -/
theorem c1_dry_run_rollback_clears_document :
    create_doc_backup true false (Entries.cons "a" (Val.int 1) Entries.nil)
        (byKeyBody none (Entries.cons "a" (Val.int 2) Entries.nil))
      = (Entries.nil, some (SyncErr.docConflict ["a"]))
    ∧ Entries.nil ≠ Entries.cons "a" (Val.int 1) Entries.nil :=
  ⟨rfl, by decide⟩

/-- C2: on `src = {"a": 1, "b": {"c": 2}}` and `dst = {"a": 1, "b": {"c": 3}}`,
ByKey with no key-strategy raises DocumentSyncConflict carrying exactly the
key-path `"b.c"`, only after the full traversal (the conflict set of the
raised error is the complete skipped set), and under the document backup
guard — the file-backed branch taken by `sync_jobs` for a non-empty
destination document — the destination document afterwards is exactly its
pre-call value. -/
theorem c2_bykey_conflict_and_restore :
    byKeyCall none doc_src2 doc_dst2 []
      = (doc_dst2, ["b.c"], some (SyncErr.docConflict ["b.c"]))
    ∧ create_doc_backup false true doc_dst2 (byKeyBody none doc_src2)
      = (doc_dst2, some (SyncErr.docConflict ["b.c"])) :=
  ⟨rfl, rfl⟩

/-- C4: the claim states that a leaf conflict at `src["x"]["y"]["z"]` is
recorded under its full dotted key-path `"x.y.z"`.  The code records `"y.z"`
instead: the recursion passes `key + '.'` as the new root, dropping the
accumulated prefix (sync.py line 339).  Traversal does continue — the
source-only sibling key `"w"` is still inserted — and the conflict is raised
after the full walk, but under the truncated key-path. -/
theorem c4_nested_conflict_keypath_drops_root :
    byKeyCall none
        (Entries.cons "x" (Val.map (Entries.cons "y"
          (Val.map (Entries.cons "z" (Val.int 1) Entries.nil)) Entries.nil))
          (Entries.cons "w" (Val.int 7) Entries.nil))
        (Entries.cons "x" (Val.map (Entries.cons "y"
          (Val.map (Entries.cons "z" (Val.int 2) Entries.nil)) Entries.nil)) Entries.nil)
        []
      = (Entries.cons "x" (Val.map (Entries.cons "y"
          (Val.map (Entries.cons "z" (Val.int 2) Entries.nil)) Entries.nil))
          (Entries.cons "w" (Val.int 7) Entries.nil),
         ["y.z"], some (SyncErr.docConflict ["y.z"]))
    ∧ ("y.z" : String) ≠ "x.y.z" :=
  ⟨rfl, by decide⟩

/-- C5: with a key-strategy that returns true for every key-path the
conflicting value is overwritten — the destination becomes
`{"a": 1, "b": {"c": 2}}` with no error — and, in general, a ByKey functor
constructed with a key-strategy never raises DocumentSyncConflict: declined
keys are only recorded and reported. -/
theorem c5_key_strategy_resolves_conflicts :
    byKeyCall (some fun _ => true) doc_src2 doc_dst2 [] = (doc_src2, [], none)
    ∧ ∀ (f : String → Bool) (src dst : Entries) (sk S : List String),
        (byKeyCall (some f) src dst sk).2.2 ≠ some (SyncErr.docConflict S) := by
  refine ⟨rfl, ?_⟩
  intro f src dst sk S
  simp only [byKeyCall]
  split
  · simp
  · simp only [Option.isNone_some, Bool.and_false, Bool.false_eq_true, if_false]
    split
    · simp
    · simp

/-- C9 (corrected): the skipped-keys set of a ByKey instance is never reset,
but a subsequent call on an unequal document pair does not always raise
DocumentSyncConflict: when a differing key holds a non-empty mapping on the
source side and a non-mapping on the destination side, the nested call
evaluates `key in dst` on a non-mapping and Python raises TypeError instead.
Here the first call records `"b.c"`; the second call, on documents
`src = {"x": {"y": 1}}` and `dst = {"x": 5}` (not equal, no key recorded),
raises TypeError, not DocumentSyncConflict. -/
theorem c9_counterexample_type_error :
    byKeyCall none
        (Entries.cons "b" (Val.map (Entries.cons "c" (Val.int 2) Entries.nil)) Entries.nil)
        (Entries.cons "b" (Val.map (Entries.cons "c" (Val.int 3) Entries.nil)) Entries.nil)
        []
      = (Entries.cons "b" (Val.map (Entries.cons "c" (Val.int 3) Entries.nil)) Entries.nil,
         ["b.c"], some (SyncErr.docConflict ["b.c"]))
    ∧ docEq (Entries.cons "x" (Val.map (Entries.cons "y" (Val.int 1) Entries.nil)) Entries.nil)
        (Entries.cons "x" (Val.int 5) Entries.nil) = false
    ∧ byKeyCall none
        (Entries.cons "x" (Val.map (Entries.cons "y" (Val.int 1) Entries.nil)) Entries.nil)
        (Entries.cons "x" (Val.int 5) Entries.nil)
        ["b.c"]
      = (Entries.cons "x" (Val.int 5) Entries.nil, ["b.c"], some SyncErr.typeErr)
    ∧ (some SyncErr.typeErr : Option SyncErr) ≠ some (SyncErr.docConflict ["b.c"]) :=
  ⟨rfl, rfl, rfl, by decide⟩

/-- C9 (amended): the accumulated conflict set is never reset between
invocations.  For an instance with a non-empty skipped-keys state, any
subsequent top-level call without a key-strategy on an unequal document pair
that completes its traversal without a TypeError raises DocumentSyncConflict
carrying (at least) every previously recorded key-path; and with a
key-strategy, the skipped keys reported by any call include those
accumulated earlier. -/
theorem c9_amended_conflicts_accumulate (src dst : Entries) (sk : List String)
    (h1 : sk ≠ []) (h2 : docEq src dst = false)
    (h3 : (byKeyCall none src dst sk).2.2 ≠ some SyncErr.typeErr) :
    (∃ S, (byKeyCall none src dst sk).2.2 = some (SyncErr.docConflict S) ∧ sk ⊆ S)
    ∧ ∀ f : String → Bool, sk ⊆ (byKeyCall (some f) src dst sk).2.1 := by
  constructor
  · have hmono := byKeyLoop_skipped_mono (sizeE src) none src dst "" sk (Nat.le_refl _)
    have hne : (byKeyLoop none src dst "" sk).2.1 ≠ [] := by
      intro hnil
      obtain ⟨x, hx⟩ := List.exists_mem_of_ne_nil sk h1
      exact absurd (hmono hx) (by simp [hnil])
    refine ⟨(byKeyLoop none src dst "" sk).2.1, ?_, hmono⟩
    simp only [byKeyCall, h2, Bool.false_eq_true, if_false]
    split
    · rename_i hte
      exact absurd (by simp only [byKeyCall, h2, Bool.false_eq_true, if_false, hte,
        if_true] : (byKeyCall none src dst sk).2.2 = some SyncErr.typeErr) h3
    · simp [List.isEmpty_eq_false_iff_exists_mem.mpr
        (List.exists_mem_of_ne_nil _ hne), Option.isNone_none]
  · intro f
    have hmono := byKeyLoop_skipped_mono (sizeE src) (some f) src dst "" sk (Nat.le_refl _)
    simp only [byKeyCall, h2, Bool.false_eq_true, if_false]
    split
    · exact hmono
    · split
      · exact hmono
      · exact hmono

/-- Witness for the C9 amended theorem: with accumulated state `{"b.c"}`, a
call on the conflict-free unequal pair `src = {"z": 1}`, `dst = {}` raises
DocumentSyncConflict still carrying `"b.c"`. -/
theorem c9_amended_witness :
    (["b.c"] : List String) ≠ []
    ∧ docEq (Entries.cons "z" (Val.int 1) Entries.nil) Entries.nil = false
    ∧ ((∃ S, (byKeyCall none (Entries.cons "z" (Val.int 1) Entries.nil)
          Entries.nil ["b.c"]).2.2 = some (SyncErr.docConflict S) ∧ ["b.c"] ⊆ S)
       ∧ ∀ f : String → Bool,
          ["b.c"] ⊆ (byKeyCall (some f) (Entries.cons "z" (Val.int 1) Entries.nil)
            Entries.nil ["b.c"]).2.1) :=
  ⟨by decide, rfl,
    c9_amended_conflicts_accumulate (Entries.cons "z" (Val.int 1) Entries.nil)
      Entries.nil ["b.c"] (by decide) rfl (by decide)⟩

/-!
Concrete trees shared by the tree-walk claims: a source whose subdirectory
`skip`, present in both trees, holds a file `f.txt` differing from the
destination's copy; and a source with a top-level source-only file `a.txt`
next to a common subdirectory `sub` holding a differing `f.txt`.
-/

def tree_src_skip : FTree :=
  FTree.dir (TList.cons "skip"
    (FTree.dir (TList.cons "f.txt" (FTree.file "new") TList.nil)) TList.nil)

def tree_dst_skip : FTree :=
  FTree.dir (TList.cons "skip"
    (FTree.dir (TList.cons "f.txt" (FTree.file "old") TList.nil)) TList.nil)

def tree_src_sub : FTree :=
  FTree.dir (TList.cons "a.txt" (FTree.file "A")
    (TList.cons "sub" (FTree.dir (TList.cons "f.txt" (FTree.file "new") TList.nil))
      TList.nil))

def tree_dst_sub : FTree :=
  FTree.dir (TList.cons "sub"
    (FTree.dir (TList.cons "f.txt" (FTree.file "old") TList.nil)) TList.nil)

/-- C3 (counterexample): the claim states that the walk never recurses into
a subdirectory whose name matches the exclude pattern, so that files under
an excluded common subdirectory are never copied and never raise
FileSyncConflict.  In the code, `diff.subdirs` is iterated without any
exclude check: with exclude pattern `skip` and a common subdirectory `skip`
containing a differing `f.txt`, the walk recurses, the conflict is detected,
and FileSyncConflict is raised; and with an always-true strategy the file
beneath the excluded subdirectory is really copied. -/
theorem c3_counterexample_excluded_common_subdir :
    syncTree false none ["skip"] "" tree_src_skip tree_dst_skip
      = (tree_dst_skip, some (SyncErr.fileConflict "f.txt"))
    ∧ syncTree false (some fun _ => true) ["skip"] "" tree_src_skip tree_dst_skip
      = (tree_src_skip, none) :=
  ⟨rfl, rfl⟩

/-- C3 (amended): exclusion is applied per level to the entry's own
basename: a source-only entry whose name matches the exclude pattern is not
copied (nothing beneath it reaches the destination), but the walk recurses
into a common subdirectory regardless of whether its name matches the
exclude pattern, so files beneath an excluded common subdirectory still
participate in copying and conflict detection. -/
theorem c3_amended_exclusion_per_level (strat : Option (String → Bool))
    (excl : List String) (subdir fn : String) (ses des : TList)
    (hexcl : matchesExclude excl fn = true) :
    syncTree false strat excl subdir
        (FTree.dir (TList.cons fn (FTree.dir ses) TList.nil)) (FTree.dir TList.nil)
      = (FTree.dir TList.nil, none)
    ∧ syncTree false strat excl subdir
        (FTree.dir (TList.cons fn (FTree.dir ses) TList.nil))
        (FTree.dir (TList.cons fn (FTree.dir des) TList.nil))
      = (FTree.dir (TList.cons fn
          (syncTree false strat excl (joinPath subdir fn)
            (FTree.dir ses) (FTree.dir des)).1 TList.nil),
         (syncTree false strat excl (joinPath subdir fn)
           (FTree.dir ses) (FTree.dir des)).2) := by
  constructor
  · simp [syncTree, copyPhase, diffPhase, walkSubdirs, lookupT, hexcl]
  · rcases hr : syncTree false strat excl (joinPath subdir fn)
        (FTree.dir ses) (FTree.dir des) with ⟨r1, e⟩
    have hcopy : copyPhase false excl
        (TList.cons fn (FTree.dir ses) TList.nil)
        (TList.cons fn (FTree.dir des) TList.nil)
        (TList.cons fn (FTree.dir des) TList.nil)
        = TList.cons fn (FTree.dir des) TList.nil := by
      simp [copyPhase, lookupT]
    have hdiff : diffPhase false strat excl subdir
        (TList.cons fn (FTree.dir ses) TList.nil)
        (TList.cons fn (FTree.dir des) TList.nil)
        (TList.cons fn (FTree.dir des) TList.nil)
        = (TList.cons fn (FTree.dir des) TList.nil, none) := by
      simp [diffPhase]
    have hlook : lookupT (TList.cons fn (FTree.dir des) TList.nil) fn
        = some (FTree.dir des) := by simp [lookupT]
    simp only [syncTree.eq_1, hcopy, hdiff]
    rw [walkSubdirs.eq_2 false strat excl subdir _ _ fn TList.nil ses des hlook, hr]
    cases e with
    | none => simp [walkSubdirs, setT]
    | some err => simp [setT]

/-- Witness for the C3 amended theorem at a concrete excluded name. -/
theorem c3_amended_witness :
    matchesExclude ["skip"] "skip" = true
    ∧ syncTree false none ["skip"] ""
        (FTree.dir (TList.cons "skip"
          (FTree.dir (TList.cons "f.txt" (FTree.file "new") TList.nil)) TList.nil))
        (FTree.dir TList.nil)
      = (FTree.dir TList.nil, none)
    ∧ syncTree false none ["skip"] ""
        (FTree.dir (TList.cons "skip"
          (FTree.dir (TList.cons "f.txt" (FTree.file "new") TList.nil)) TList.nil))
        (FTree.dir (TList.cons "skip"
          (FTree.dir (TList.cons "f.txt" (FTree.file "old") TList.nil)) TList.nil))
      = (FTree.dir (TList.cons "skip"
          (syncTree false none ["skip"] (joinPath "" "skip")
            (FTree.dir (TList.cons "f.txt" (FTree.file "new") TList.nil))
            (FTree.dir (TList.cons "f.txt" (FTree.file "old") TList.nil))).1 TList.nil),
         (syncTree false none ["skip"] (joinPath "" "skip")
           (FTree.dir (TList.cons "f.txt" (FTree.file "new") TList.nil))
           (FTree.dir (TList.cons "f.txt" (FTree.file "old") TList.nil))).2) := by
  refine ⟨by decide, ?_, ?_⟩
  · exact (c3_amended_exclusion_per_level none ["skip"] "" "skip"
      (TList.cons "f.txt" (FTree.file "new") TList.nil)
      (TList.cons "f.txt" (FTree.file "old") TList.nil) (by decide)).1
  · exact (c3_amended_exclusion_per_level none ["skip"] "" "skip"
      (TList.cons "f.txt" (FTree.file "new") TList.nil)
      (TList.cons "f.txt" (FTree.file "old") TList.nil) (by decide)).2

/-- C6 (counterexample): the claim states that the FileSyncConflict raised
for a differing file inside a subdirectory names the path including its
subdirectory prefix.  The code raises `FileSyncConflict(fn)` with the bare
entry name (sync.py line 377), while only the strategy call receives the
joined path: the conflict below names `"f.txt"`, not `"sub/f.txt"`. -/
theorem c6_counterexample_basename_only :
    syncTree false none [] "" tree_src_sub tree_dst_sub
      = (FTree.dir (TList.cons "sub"
          (FTree.dir (TList.cons "f.txt" (FTree.file "old") TList.nil))
          (TList.cons "a.txt" (FTree.file "A") TList.nil)),
         some (SyncErr.fileConflict "f.txt"))
    ∧ SyncErr.fileConflict "f.txt" ≠ SyncErr.fileConflict "sub/f.txt" :=
  ⟨rfl, by decide⟩

/-- C6 (amended): with no strategy configured, the first non-excluded
differing file encountered in a directory raises FileSyncConflict naming
that file's bare name (without the subdirectory prefix), leaving the
destination in whatever state the walk had already reached; concretely, the
source-only `a.txt` copied before the conflict in `sub` remains copied —
there is no tree-wide rollback. -/
theorem c6_amended_first_conflict_basename
    (dry : Bool) (excl : List String) (subdir fn c c0 : String)
    (rest dst0 acc : TList)
    (hexcl : matchesExclude excl fn = false)
    (hlook : lookupT dst0 fn = some (FTree.file c0))
    (hne : (c == c0) = false) :
    diffPhase dry none excl subdir (TList.cons fn (FTree.file c) rest) dst0 acc
      = (acc, some (SyncErr.fileConflict fn))
    ∧ syncTree false none [] "" tree_src_sub tree_dst_sub
      = (FTree.dir (TList.cons "sub"
          (FTree.dir (TList.cons "f.txt" (FTree.file "old") TList.nil))
          (TList.cons "a.txt" (FTree.file "A") TList.nil)),
         some (SyncErr.fileConflict "f.txt")) := by
  refine ⟨?_, rfl⟩
  simp [diffPhase, hlook, hne, hexcl]

/-- Witness for the C6 amended theorem at a concrete differing file. -/
theorem c6_amended_witness :
    matchesExclude [] "f.txt" = false
    ∧ lookupT (TList.cons "f.txt" (FTree.file "old") TList.nil) "f.txt"
        = some (FTree.file "old")
    ∧ (("new" : String) == "old") = false
    ∧ diffPhase false none [] "sub"
        (TList.cons "f.txt" (FTree.file "new") TList.nil)
        (TList.cons "f.txt" (FTree.file "old") TList.nil)
        (TList.cons "a.txt" (FTree.file "A") TList.nil)
      = (TList.cons "a.txt" (FTree.file "A") TList.nil,
         some (SyncErr.fileConflict "f.txt")) :=
  ⟨by decide, rfl, by decide,
    (c6_amended_first_conflict_basename false [] "sub" "f.txt" "new" "old"
      TList.nil (TList.cons "f.txt" (FTree.file "old") TList.nil)
      (TList.cons "a.txt" (FTree.file "A") TList.nil)
      (by decide) rfl (by decide)).1⟩

/-- C7: the scoped file backup's three-part contract.  (1) If a duplicate
with the backup suffix already exists, the guard raises before mutating
anything.  (2) If the guarded region raises (and leaves the duplicate in
place, which it never touches in the engine), the target file is restored
from the duplicate and the original exception propagates.  (3) On exit the
duplicate is gone — success or failure — as the final step. -/
theorem c7_create_backup_contract (fs : FS) (path c : String)
    (body : FS → FS × Option SyncErr) (fs2 : FS) (e : SyncErr) :
    (fsIsFile fs (path ++ "~") = true →
      create_backup false fs path body
        = (fs, some (SyncErr.backupExists (path ++ "~"))))
    ∧ (fsIsFile fs (path ++ "~") = false → fsLookup fs path = some c →
        body (fsWrite fs (path ++ "~") c) = (fs2, some e) →
        fsLookup fs2 (path ++ "~") = some c →
        create_backup false fs path body
          = (fsRemove (fsWrite fs2 path c) (path ++ "~"), some e)
        ∧ fsLookup (create_backup false fs path body).1 path = some c)
    ∧ (fsIsFile fs (path ++ "~") = false →
        fsIsFile (create_backup false fs path body).1 (path ++ "~") = false) := by
  refine ⟨?_, ?_, ?_⟩
  · intro h
    simp [create_backup, h]
  · intro h hpath hbody hkeep
    have hres : create_backup false fs path body
        = (fsRemove (fsWrite fs2 path c) (path ++ "~"), some e) := by
      simp only [create_backup, h, Bool.false_eq_true, if_false,
        proxyCopy, hpath, hbody, hkeep, proxyRemove]
      have hfile : fsIsFile (fsWrite fs2 path c) (path ++ "~") = true := by
        simp only [fsIsFile]
        rw [fsLookup_write_ne fs2 path c (path ++ "~")
          (fun hh => string_ne_append_tilde path hh.symm)]
        simp [hkeep]
      simp [hfile]
    refine ⟨hres, ?_⟩
    rw [hres]
    rw [fsLookup_remove_ne _ _ _ (string_ne_append_tilde path)]
    exact fsLookup_write_self fs2 path c
  · intro h
    simp only [create_backup, h, Bool.false_eq_true, if_false]
    generalize (match
        (match proxyCopy false fs path (path ++ "~") with
          | (fs1, some e) => (fs1, some e)
          | (fs1, none) => body fs1) with
      | (fs2, none) => (fs2, (none : Option SyncErr))
      | (fs2, some e) =>
          match proxyCopy false fs2 (path ++ "~") path with
          | (fs3, some e2) => (fs3, some e2)
          | (fs3, none) => (fs3, some e)) = after
    rcases hfin : proxyRemove false after.1 (path ++ "~") with ⟨fs4, e4⟩
    have := fsIsFile_proxyRemove after.1 (path ++ "~")
    rw [hfin] at this
    cases e4 with
    | none => simpa using this
    | some e4 => simpa using this

/-- C8: for every selected source job, the clone-or-merge dispatch clones
the job wholesale (workspace plus document) and reports a clone when no job
with its id exists at the destination, falls back to the per-job sync path
and reports a merge when one does, the sequential loop tallies the
respective counter, and — for a well-formed job — a clone followed by a
second sync takes the merge path and leaves the destination exactly as the
clone left it, which by the merge equation is the same contents a single
merge against the cloned state produces. -/
theorem c8_clone_or_merge_contract (strat : Option (String → Bool))
    (excl : List String) (fnM fnD : String) (id0 : String) (j : JobData)
    (dst : Proj) :
    (lookupJ dst id0 = none →
      clone_or_sync false strat excl fnM fnD dst id0 j = (setJ dst id0 j, 1, none))
    ∧ (∀ dj, lookupJ dst id0 = some dj →
        clone_or_sync false strat excl fnM fnD dst id0 j
          = (setJ dst id0 (sync_jobs false strat excl fnM fnD j dj).1, 2,
             (sync_jobs false strat excl fnM fnD j dj).2))
    ∧ (lookupJ dst id0 = none →
        sync_projects_jobs false strat excl fnM fnD [(id0, j)] dst 0 0
          = (setJ dst id0 j, 1, 0, none))
    ∧ (wfTL j.ws = true → wfE j.doc = true → lookupJ dst id0 = none →
        clone_or_sync false strat excl fnM fnD (setJ dst id0 j) id0 j
          = (setJ dst id0 j, 2, none)) := by
  refine ⟨?_, ?_, ?_, ?_⟩
  · intro h
    simp [clone_or_sync, h]
  · intro dj h
    simp [clone_or_sync, h]
  · intro h
    simp [sync_projects_jobs, clone_or_sync, h]
  · intro hws hdoc h
    have hself := sync_jobs_self hws hdoc strat excl fnM fnD
    simp [clone_or_sync, lookupJ_setJ_self, hself,
      setJ_self (setJ dst id0 j) id0 j (lookupJ_setJ_self dst id0 j)]

/-- Witness for the C8 contract on a concrete one-file job. -/
theorem c8_clone_or_merge_witness :
    clone_or_sync false none [] ".m" ".d" [] "job1"
        ⟨TList.cons "a.txt" (FTree.file "A") TList.nil,
         Entries.cons "k" (Val.int 5) Entries.nil⟩
      = ([("job1", ⟨TList.cons "a.txt" (FTree.file "A") TList.nil,
           Entries.cons "k" (Val.int 5) Entries.nil⟩)], 1, none)
    ∧ sync_projects_jobs false none [] ".m" ".d"
        [("job1", ⟨TList.cons "a.txt" (FTree.file "A") TList.nil,
           Entries.cons "k" (Val.int 5) Entries.nil⟩)] [] 0 0
      = ([("job1", ⟨TList.cons "a.txt" (FTree.file "A") TList.nil,
           Entries.cons "k" (Val.int 5) Entries.nil⟩)], 1, 0, none)
    ∧ clone_or_sync false none [] ".m" ".d"
        [("job1", ⟨TList.cons "a.txt" (FTree.file "A") TList.nil,
           Entries.cons "k" (Val.int 5) Entries.nil⟩)] "job1"
        ⟨TList.cons "a.txt" (FTree.file "A") TList.nil,
         Entries.cons "k" (Val.int 5) Entries.nil⟩
      = ([("job1", ⟨TList.cons "a.txt" (FTree.file "A") TList.nil,
           Entries.cons "k" (Val.int 5) Entries.nil⟩)], 2, none) := by
  refine ⟨?_, ?_, ?_⟩
  · exact (c8_clone_or_merge_contract none [] ".m" ".d" "job1"
      ⟨TList.cons "a.txt" (FTree.file "A") TList.nil,
       Entries.cons "k" (Val.int 5) Entries.nil⟩ []).1 rfl
  · exact (c8_clone_or_merge_contract none [] ".m" ".d" "job1"
      ⟨TList.cons "a.txt" (FTree.file "A") TList.nil,
       Entries.cons "k" (Val.int 5) Entries.nil⟩ []).2.2.1 rfl
  · exact (c8_clone_or_merge_contract none [] ".m" ".d" "job1"
      ⟨TList.cons "a.txt" (FTree.file "A") TList.nil,
       Entries.cons "k" (Val.int 5) Entries.nil⟩ []).2.2.2 rfl rfl rfl

/-- Witness for the C7 create_backup contract: refusal on a stale duplicate
and restore-then-delete after a failing guarded region, at a concrete file
system. -/
theorem c7_create_backup_contract_witness :
    create_backup false [("f", "orig"), ("f~", "stale")] "f" (fun fs => (fs, none))
      = ([("f", "orig"), ("f~", "stale")], some (SyncErr.backupExists "f~"))
    ∧ create_backup false [("f", "orig")] "f"
        (fun fs => (fsWrite fs "f" "clobbered", some SyncErr.ioError))
      = (fsRemove (fsWrite (fsWrite (fsWrite [("f", "orig")] "f~" "orig")
          "f" "clobbered") "f" "orig") "f~", some SyncErr.ioError)
    ∧ fsLookup (create_backup false [("f", "orig")] "f"
        (fun fs => (fsWrite fs "f" "clobbered", some SyncErr.ioError))).1 "f"
      = some "orig"
    ∧ fsIsFile (create_backup false [("f", "orig")] "f"
        (fun fs => (fsWrite fs "f" "clobbered", some SyncErr.ioError))).1 "f~"
      = false := by
  refine ⟨?_, ?_, ?_, ?_⟩
  · exact (c7_create_backup_contract [("f", "orig"), ("f~", "stale")] "f" "orig"
      (fun fs => (fs, none)) [("f", "orig"), ("f~", "stale")] SyncErr.ioError).1 rfl
  · exact ((c7_create_backup_contract [("f", "orig")] "f" "orig"
      (fun fs => (fsWrite fs "f" "clobbered", some SyncErr.ioError))
      (fsWrite (fsWrite [("f", "orig")] "f~" "orig") "f" "clobbered")
      SyncErr.ioError).2.1 rfl rfl rfl rfl).1
  · exact ((c7_create_backup_contract [("f", "orig")] "f" "orig"
      (fun fs => (fsWrite fs "f" "clobbered", some SyncErr.ioError))
      (fsWrite (fsWrite [("f", "orig")] "f~" "orig") "f" "clobbered")
      SyncErr.ioError).2.1 rfl rfl rfl rfl).2
  · exact (c7_create_backup_contract [("f", "orig")] "f" "orig"
      (fun fs => (fsWrite fs "f" "clobbered", some SyncErr.ioError))
      (fsWrite (fsWrite [("f", "orig")] "f~" "orig") "f" "clobbered")
      SyncErr.ioError).2.2 rfl
